import Mathlib

/-!
Verification of the data-transformation contract of
`scripts/fetch-osm-streets.py`.

The script downloads a street-network graph for a fixed bounding box,
converts it to an edge table, keeps a preferred subset of columns,
flattens list-valued cells to their first element, and writes the table
as a GeoJSON file, printing a highway-type frequency breakdown.

The embedding below models the edge table as a list of rows (each row a
list of cells parallel to the column list), the graph as a list of edges
carrying attribute assoc-lists, and the filesystem as explicit state.
External library calls (`ox.graph_to_gdfs`, `os.makedirs`,
`GeoDataFrame.to_file`, `Series.value_counts`) are modelled by their
documented behaviour, which is what the script relies on.
-/

namespace HarborView

/-- A cell of the edge table: a scalar tag value, a list of tag values
(OSM sometimes returns several tags per attribute), a line geometry
(coordinates scaled to integers; the transformation never inspects
them), or a missing value (pandas NaN / absent attribute). -/
inductive Cell where
  | scalar (s : String)
  | vlist (vs : List String)
  | geom (g : List (Int × Int))
  | missing
deriving DecidableEq, Repr

/-- A (Geo)DataFrame: a multi-index `(u, v, key)` per row, a list of
column labels, and one cell list per row, parallel to the columns. -/
structure Table where
  index : List (Nat × Nat × Nat)
  columns : List String
  rows : List (List Cell)
deriving DecidableEq, Repr

/-- Line 51: `keep_cols = ["geometry", "name", "highway", "lanes",
"maxspeed", "oneway", "length"]`. -/
def keep_cols : List String :=
  ["geometry", "name", "highway", "lanes", "maxspeed", "oneway", "length"]

/-- Line 52: `available = [c for c in keep_cols if c in edges_gdf.columns]`. -/
def available (cols : List String) : List String :=
  keep_cols.filter (fun c => c ∈ cols)

/-- Label-based cell lookup in a row: the cell paired with the first
occurrence of the label `c` in `cols`, or missing when the label is
absent. -/
def getCell (cols : List String) (row : List Cell) (c : String) : Cell :=
  match (cols.zip row).find? (fun p => p.1 == c) with
  | some p => p.2
  | none => Cell.missing

/-- Line 53: `streets_gdf = edges_gdf[available].copy()` — label-based
column selection, keeping every row. -/
def selectColumns (t : Table) (cs : List String) : Table :=
  { index := t.index, columns := cs,
    rows := t.rows.map (fun r => cs.map (fun c => getCell t.columns r c)) }

/-- Line 56: `streets_gdf = streets_gdf.reset_index(drop=True)` — the
multi-index is discarded; rows are untouched. -/
def resetIndex (t : Table) : Table :=
  { t with index := [] }

/-- Line 63: `lambda v: v[0] if isinstance(v, list) and len(v) > 0 else v`. -/
def flattenCell (v : Cell) : Cell :=
  match v with
  | Cell.vlist (x :: _) => Cell.scalar x
  | _ => v

/-- Lines 59-64, per column: the geometry column is skipped
(`if col == "geometry": continue`), every other column gets the
flattening lambda applied cell-wise. -/
def flattenColCell (c : String) (v : Cell) : Cell :=
  if c = "geometry" then v else flattenCell v

/-- Lines 59-64: apply the flattening lambda to every cell of every
non-geometry column of the table. -/
def flattenTable (t : Table) : Table :=
  { t with rows := t.rows.map (fun r => List.zipWith flattenColCell t.columns r) }

/-- Lines 51-64: the pure table transformation of `fetch_streets` —
select the available preferred columns, reset the index, flatten
list-valued cells. -/
def transformEdges (edges : Table) : Table :=
  flattenTable (resetIndex (selectColumns edges (available edges.columns)))

/-- The values of column `c`, row by row. -/
def columnValues (t : Table) (c : String) : List Cell :=
  t.rows.map (fun r => getCell t.columns r c)

/-- A graph edge: endpoints and key (the multi-index), OSM tag
attributes as an assoc-list, and a line geometry. -/
structure Edge where
  u : Nat
  v : Nat
  key : Nat
  attrs : List (String × Cell)
  geom : List (Int × Int)
deriving DecidableEq, Repr

/-- The fetched street-network graph (post-simplification): nodes and
edges. -/
structure Graph where
  nodes : List Nat
  edges : List Edge
deriving DecidableEq, Repr

/-- The union of the attribute keys of all edges, first-seen order. -/
def edgeAttrColumns (g : Graph) : List String :=
  g.edges.foldl
    (fun acc e => acc ++ (e.attrs.map Prod.fst).filter (fun k => !acc.contains k)) []

/-- Columns of the edge table produced by the converter: `geometry`
(always present) plus the union of attribute keys. -/
def edgeColumns (g : Graph) : List String :=
  "geometry" :: edgeAttrColumns g

/-- The cell of edge `e` at column `c`: the line geometry for the
geometry column, the tag value when the edge carries the attribute,
missing (NaN) otherwise. -/
def edgeCell (e : Edge) (c : String) : Cell :=
  if c = "geometry" then Cell.geom e.geom
  else
    match e.attrs.find? (fun p => p.1 == c) with
    | some p => p.2
    | none => Cell.missing

/-- Line 47, edge half of `ox.graph_to_gdfs(G)`, modelled from the
library's documented contract (spec section 4.2: one street-segment
record derived 1:1 from each graph edge, geometry required, tags where
present). -/
def graph_to_gdfs (g : Graph) : Table :=
  { index := g.edges.map (fun e => (e.u, e.v, e.key)),
    columns := edgeColumns g,
    rows := g.edges.map (fun e => (edgeColumns g).map (edgeCell e)) }

/-- An abstract filesystem: the set of existing directories and a map
from file paths to the table serialized there (paths as component
lists). -/
structure FileSystem where
  dirs : List (List String)
  files : List (List String × Table)
deriving DecidableEq, Repr

/-- Line 25: `OUTPUT_DIR = os.path.join(os.path.dirname(__file__), "..",
"public", "assets", "data")`, as path components relative to the script
directory. -/
def OUTPUT_DIR : List String :=
  ["..", "public", "assets", "data"]

/-- Line 26: `OUTPUT_FILE = os.path.join(OUTPUT_DIR, "harbor-streets.geojson")`. -/
def OUTPUT_FILE : List String :=
  OUTPUT_DIR ++ ["harbor-streets.geojson"]

/-- Line 67: `os.makedirs(OUTPUT_DIR, exist_ok=True)`, modelled from the
library's documented contract: create the directory and every ancestor,
succeeding whether or not they already exist (`exist_ok=True`), leaving
files untouched. -/
def makedirs (fs : FileSystem) (p : List String) : FileSystem :=
  { fs with dirs := p.inits ++ fs.dirs }

/-- A directory exists in the filesystem state. -/
def dirExists (fs : FileSystem) (p : List String) : Prop :=
  p ∈ fs.dirs

/-- Line 70: `streets_gdf.to_file(OUTPUT_FILE, driver="GeoJSON")`,
modelled from the library's documented contract: serialize the table at
the path, unconditionally replacing any file already there. -/
def to_file (fs : FileSystem) (p : List String) (t : Table) : FileSystem :=
  { fs with files := (p, t) :: fs.files.filter (fun q => q.1 ≠ p) }

/-- Read back the table stored at a path, if any. -/
def readFile (fs : FileSystem) (p : List String) : Option Table :=
  match fs.files.find? (fun q => q.1 == p) with
  | some q => some q.2
  | none => none

/-- Lines 66-70: the write phase — ensure the output directory exists,
then write the table to the output file. -/
def writePhase (fs : FileSystem) (t : Table) : FileSystem :=
  to_file (makedirs fs OUTPUT_DIR) OUTPUT_FILE t

/-- Outcome of one run of the script: whether the process exited with
status zero, and the final filesystem state. -/
structure RunResult where
  exitZero : Bool
  fs : FileSystem
deriving DecidableEq, Repr

/-- Lines 29-88: one run of `fetch_streets`. The upstream fetch
(line 36, `ox.graph_from_bbox`) either raises — nothing catches the
exception, so the process dies nonzero before touching the filesystem —
or yields a graph, which is converted, transformed and written. -/
def fetch_streets (fetchResult : Except String Graph) (fs : FileSystem) : RunResult :=
  match fetchResult with
  | Except.error _ => { exitZero := false, fs := fs }
  | Except.ok g =>
      { exitZero := true, fs := writePhase fs (transformEdges (graph_to_gdfs g)) }

/-- The non-missing values of a column (pandas `value_counts` skips
NaN). -/
def nonMissing (l : List Cell) : List Cell :=
  l.filter (fun v => v ≠ Cell.missing)

/-- Accumulator pass keeping the first occurrence of each value. -/
def distinctsAux (acc : List Cell) : List Cell → List Cell
  | [] => acc
  | v :: vs => distinctsAux (if v ∈ acc then acc else acc ++ [v]) vs

/-- The distinct values of a list, first-seen order. -/
def distincts (l : List Cell) : List Cell :=
  distinctsAux [] l

/-- Ordering of `(value, count)` pairs by descending count. -/
def countDesc (a b : Cell × Nat) : Prop :=
  b.2 ≤ a.2

instance : DecidableRel countDesc :=
  fun a b => Nat.decLe b.2 a.2

instance : IsTotal (Cell × Nat) countDesc :=
  ⟨fun a b => (Nat.le_total b.2 a.2).imp id id⟩

instance : IsTrans (Cell × Nat) countDesc :=
  ⟨fun _ _ _ hab hbc => Nat.le_trans hbc hab⟩

/-- Line 82: `streets_gdf["highway"].value_counts()`, modelled from the
library's documented contract: the count of each distinct non-NaN value,
sorted in descending order of count. -/
def value_counts (col : List Cell) : List (Cell × Nat) :=
  let vs := nonMissing col
  List.insertionSort countDesc ((distincts vs).map (fun v => (v, vs.count v)))

/-- Lines 79-84: the highway-type breakdown is printed exactly when a
`highway` column is present in the output table; what is printed is
`value_counts` of that column. -/
def highwayBreakdown (t : Table) : Option (List (Cell × Nat)) :=
  if "highway" ∈ t.columns then some (value_counts (columnValues t "highway")) else none

/-- Whether a cell is a line geometry. -/
def Cell.isGeom : Cell → Bool
  | Cell.geom _ => true
  | _ => false

/-- The output row derived from an input row: the available preferred
columns, each flattened unless it is the geometry column. -/
def outRow (cols : List String) (r : List Cell) : List Cell :=
  (available cols).map (fun c => flattenColCell c (getCell cols r c))

/-- The spec's mocked 3-edge graph: edge 1 has a two-element highway
list, edge 2 a scalar highway, edge 3 no highway attribute. -/
def demoGraph : Graph :=
  { nodes := [1, 2, 3, 4],
    edges :=
      [ { u := 1, v := 2, key := 0,
          attrs := [("highway", Cell.vlist ["residential", "tertiary"])],
          geom := [(0, 0), (1, 1)] },
        { u := 2, v := 3, key := 0,
          attrs := [("highway", Cell.scalar "primary")],
          geom := [(1, 1), (2, 2)] },
        { u := 3, v := 4, key := 0,
          attrs := [],
          geom := [(2, 2), (3, 3)] } ] }

/-- A graph whose single edge carries an empty-list attribute value. -/
def ceGraph : Graph :=
  { nodes := [1, 2],
    edges :=
      [ { u := 1, v := 2, key := 0,
          attrs := [("name", Cell.vlist [])],
          geom := [(0, 0), (1, 1)] } ] }

/-- An empty filesystem: no directories, no files. -/
def emptyFS : FileSystem :=
  { dirs := [], files := [] }

/-- A small concrete table with a list-valued and an empty-list cell. -/
def wTable : Table :=
  { index := [],
    columns := ["geometry", "name", "highway"],
    rows :=
      [ [Cell.geom [(0, 0)], Cell.vlist [], Cell.vlist ["residential", "tertiary"]],
        [Cell.geom [(1, 1)], Cell.scalar "Broad St", Cell.missing] ] }

/-- A concrete table without a highway column. -/
def noHighwayTable : Table :=
  { index := [],
    columns := ["geometry", "name"],
    rows := [[Cell.geom [(0, 0)], Cell.scalar "Broad St"]] }

section Lemmas

/-- Zipping labels against a label-indexed `zipWith` of a row is the
mapped zip of labels against the row. -/
theorem zip_zipWith (f : String → Cell → Cell) :
    ∀ (cols : List String) (row : List Cell),
      cols.zip (List.zipWith f cols row)
        = (cols.zip row).map (fun p => (p.1, f p.1 p.2))
  | [], _ => rfl
  | _ :: _, [] => rfl
  | x :: xs, v :: vs => by
    simp [List.zip_cons_cons, zip_zipWith f xs vs]

/-- Label lookup after a per-column cell map: the mapped cell of the
looked-up label, provided the map sends missing to missing at this
label. -/
theorem getCell_zipWith (f : String → Cell → Cell)
    (hf : ∀ c, f c Cell.missing = Cell.missing) :
    ∀ (cols : List String) (row : List Cell) (c : String),
      getCell cols (List.zipWith f cols row) c = f c (getCell cols row c)
  | [], _, c => by simp [getCell, hf]
  | _ :: _, [], c => by simp [getCell, hf]
  | x :: xs, v :: vs, c => by
    by_cases h : x = c
    · subst h
      simp [getCell, List.zip_cons_cons, List.find?]
    · have hb : (x == c) = false := beq_false_of_ne h
      have ih := getCell_zipWith f hf xs vs c
      simpa [getCell, List.zip_cons_cons, List.find?, hb] using ih

/-- Label lookup in a row built by mapping a function over the labels
themselves recovers the function, at any present label. -/
theorem getCell_mapRow (f : String → Cell) :
    ∀ (cs : List String) (c : String), c ∈ cs → getCell cs (cs.map f) c = f c
  | [], c, h => by simp at h
  | x :: xs, c, h => by
    by_cases hx : x = c
    · subst hx
      simp [getCell, List.zip_cons_cons, List.find?]
    · have hb : (x == c) = false := beq_false_of_ne hx
      have hc : c ∈ xs := by
        rcases List.mem_cons.mp h with h1 | h1
        · exact absurd h1.symm hx
        · exact h1
      have ih := getCell_mapRow f xs c hc
      simpa [getCell, List.zip_cons_cons, List.find?, hb] using ih

/-- The flattening map sends a missing cell to a missing cell in every
column. -/
theorem flattenColCell_missing (c : String) :
    flattenColCell c Cell.missing = Cell.missing := by
  unfold flattenColCell
  split <;> rfl

/-- On a non-geometry column the flattening map is the flattening
lambda. -/
theorem flattenColCell_ne (c : String) (h : c ≠ "geometry") (v : Cell) :
    flattenColCell c v = flattenCell v := by
  simp [flattenColCell, h]

/-- The flattening step acts column-wise: afterwards, every column's
values are the pointwise image under the per-column flattening map. -/
theorem columnValues_flattenTable (t : Table) (c : String) :
    columnValues (flattenTable t) c = (columnValues t c).map (flattenColCell c) := by
  simp only [columnValues, flattenTable, List.map_map]
  refine List.map_congr_left (fun r _ => ?_)
  exact getCell_zipWith flattenColCell flattenColCell_missing t.columns r c

/-- The flattening step on a non-geometry column is exactly the
flattening lambda applied to every cell. -/
theorem columnValues_flattenTable_ne (t : Table) (c : String) (h : c ≠ "geometry") :
    columnValues (flattenTable t) c = (columnValues t c).map flattenCell := by
  rw [columnValues_flattenTable]
  exact List.map_congr_left (fun v _ => flattenColCell_ne c h v)

/-- The transformed table's columns are the available preferred
columns. -/
theorem transformEdges_columns (t : Table) :
    (transformEdges t).columns = available t.columns := rfl

/-- The transformed table's rows are the per-row output rows, in
order. -/
theorem transformEdges_rows (t : Table) :
    (transformEdges t).rows = t.rows.map (outRow t.columns) := by
  simp only [transformEdges, flattenTable, resetIndex, selectColumns, List.map_map]
  refine List.map_congr_left (fun r _ => ?_)
  show List.zipWith flattenColCell (available t.columns)
      ((available t.columns).map (fun c => getCell t.columns r c)) = outRow t.columns r
  rw [List.zipWith_map_right, List.zipWith_same]
  rfl

/-- Looking up a label in an output row gives the flattened looked-up
input cell, at any available label. -/
theorem getCell_outRow (cols : List String) (r : List Cell) (c : String)
    (h : c ∈ available cols) :
    getCell (available cols) (outRow cols r) c = flattenColCell c (getCell cols r c) :=
  getCell_mapRow (fun c => flattenColCell c (getCell cols r c)) (available cols) c h

/-- Membership in the available columns unfolds to membership in both
lists. -/
theorem mem_available (cols : List String) (c : String) :
    c ∈ available cols ↔ c ∈ keep_cols ∧ c ∈ cols := by
  simp [available, List.mem_filter]

/-- Reading back the file just written returns the written table. -/
theorem readFile_to_file_same (fs : FileSystem) (p : List String) (t : Table) :
    readFile (to_file fs p t) p = some t := by
  simp [readFile, to_file, List.find?]

/-- Membership in the accumulator pass for distinct values. -/
theorem mem_distinctsAux :
    ∀ (l acc : List Cell) (v : Cell), v ∈ distinctsAux acc l ↔ v ∈ acc ∨ v ∈ l
  | [], acc, v => by simp [distinctsAux]
  | x :: xs, acc, v => by
    simp only [distinctsAux]
    rw [mem_distinctsAux xs _ v]
    by_cases hx : x ∈ acc
    · simp only [if_pos hx, List.mem_cons]
      constructor
      · rintro (h | h)
        · exact Or.inl h
        · exact Or.inr (Or.inr h)
      · rintro (h | h | h)
        · exact Or.inl h
        · exact Or.inl (h ▸ hx)
        · exact Or.inr h
    · simp only [if_neg hx, List.mem_append, List.mem_singleton, List.mem_cons]
      tauto

/-- A value occurs among the distinct values exactly when it occurs in
the list. -/
theorem mem_distincts (l : List Cell) (v : Cell) :
    v ∈ distincts l ↔ v ∈ l := by
  simpa [distincts] using mem_distinctsAux l [] v

/-- The value-count list is sorted by descending count. -/
theorem value_counts_sorted (col : List Cell) :
    (value_counts col).Sorted countDesc :=
  List.sorted_insertionSort countDesc _

/-- Every pair in the value-count list carries the count of its value
among the non-missing cells. -/
theorem value_counts_count (col : List Cell) :
    ∀ p ∈ value_counts col, p.2 = (nonMissing col).count p.1 := by
  intro p hp
  unfold value_counts at hp
  have hp' := (List.perm_insertionSort countDesc _).mem_iff.mp hp
  rcases List.mem_map.mp hp' with ⟨v, _, rfl⟩
  rfl

/-- The values listed in the value-count list are exactly the
non-missing values of the column. -/
theorem value_counts_keys (col : List Cell) (v : Cell) :
    v ∈ (value_counts col).map Prod.fst ↔ v ∈ nonMissing col := by
  unfold value_counts
  rw [((List.perm_insertionSort countDesc _).map Prod.fst).mem_iff]
  simp [List.map_map, Function.comp, mem_distincts]

end Lemmas

/-- C1: for every non-geometry column, the flattening step replaces each
cell whose value is a non-empty list with that list's first element and
leaves scalar and missing cells unchanged; on the spec's mocked 3-edge
graph (edge 1 highway = ["residential", "tertiary"], edge 2 highway =
"primary", edge 3 no highway) the emitted highway values are
residential, primary, and absent, in that order. -/
theorem flatten_replaces_nonempty_lists :
    (∀ (t : Table) (c : String), c ≠ "geometry" →
        columnValues (flattenTable t) c = (columnValues t c).map flattenCell)
  ∧ (∀ (x : String) (xs : List String), flattenCell (Cell.vlist (x :: xs)) = Cell.scalar x)
  ∧ (∀ s : String, flattenCell (Cell.scalar s) = Cell.scalar s)
  ∧ flattenCell Cell.missing = Cell.missing
  ∧ columnValues (transformEdges (graph_to_gdfs demoGraph)) "highway"
      = [Cell.scalar "residential", Cell.scalar "primary", Cell.missing] :=
  ⟨fun t c h => columnValues_flattenTable_ne t c h,
   fun _ _ => rfl, fun _ => rfl, rfl, rfl⟩

/-- Witness for C1 at a concrete table and column. -/
theorem flatten_replaces_nonempty_lists_witness :
    columnValues (flattenTable wTable) "highway"
      = (columnValues wTable "highway").map flattenCell :=
  flatten_replaces_nonempty_lists.1 wTable "highway" (by decide)

/-- C2 counterexample: an edge carrying an empty-list attribute value
reaches the written output still as an empty list — the flattening
lambda leaves empty lists unchanged, so the empty-list cell is not
normalized to null/absence before emission. -/
theorem empty_list_survives_flattening :
    readFile (fetch_streets (Except.ok ceGraph) emptyFS).fs OUTPUT_FILE
      = some (transformEdges (graph_to_gdfs ceGraph))
  ∧ columnValues (transformEdges (graph_to_gdfs ceGraph)) "name" = [Cell.vlist []]
  ∧ Cell.vlist [] ≠ Cell.missing :=
  ⟨rfl, rfl, by decide⟩

/-- C2 amended: the flattening step leaves empty-list cells unchanged
(they survive as empty lists); only non-empty list cells are replaced
by their first element. -/
theorem empty_list_cells_unchanged :
    (∀ (t : Table) (c : String), c ≠ "geometry" →
        columnValues (flattenTable t) c = (columnValues t c).map flattenCell)
  ∧ flattenCell (Cell.vlist []) = Cell.vlist [] :=
  ⟨fun t c h => columnValues_flattenTable_ne t c h, rfl⟩

/-- Witness for the amended C2 at a concrete table holding an
empty-list cell. -/
theorem empty_list_cells_unchanged_witness :
    columnValues (flattenTable wTable) "name"
      = (columnValues wTable "name").map flattenCell :=
  empty_list_cells_unchanged.1 wTable "name" (by decide)

/-- C3: the retained columns are exactly the fixed preferred list
intersected with the columns present in the fetched edge table — no
extra column, no dropped available column. -/
theorem columns_are_preferred_intersection :
    (∀ e : Table, (transformEdges e).columns = available e.columns)
  ∧ (∀ (cols : List String) (c : String),
        c ∈ available cols ↔ c ∈ keep_cols ∧ c ∈ cols) :=
  ⟨fun _ => rfl, fun cols c => mem_available cols c⟩

/-- C4: the number of output rows equals the number of edges of the
fetched graph — selection, index reset and flattening neither add nor
remove rows. -/
theorem feature_count_eq_edge_count :
    ∀ g : Graph,
      (transformEdges (graph_to_gdfs g)).rows.length = g.edges.length
    ∧ (graph_to_gdfs g).rows.length = g.edges.length := by
  intro g
  constructor
  · rw [transformEdges_rows]
    simp [graph_to_gdfs]
  · simp [graph_to_gdfs]

/-- C5: in every output row the geometry field is present (the geometry
column is always selected) and holds a line geometry, never a missing
value — the flattening step skips the geometry column. -/
theorem geometry_present_nonnull :
    ∀ g : Graph,
      "geometry" ∈ (transformEdges (graph_to_gdfs g)).columns
    ∧ ∀ r ∈ (transformEdges (graph_to_gdfs g)).rows,
        (getCell (transformEdges (graph_to_gdfs g)).columns r "geometry").isGeom = true
      ∧ getCell (transformEdges (graph_to_gdfs g)).columns r "geometry" ≠ Cell.missing := by
  intro g
  have hmemc : "geometry" ∈ edgeColumns g := by
    rw [edgeColumns]
    exact List.mem_cons_self _ _
  have hav : "geometry" ∈ available (graph_to_gdfs g).columns :=
    (mem_available _ _).mpr ⟨by decide, hmemc⟩
  refine ⟨hav, ?_⟩
  intro r hr
  rw [transformEdges_rows] at hr
  rcases List.mem_map.mp hr with ⟨r0, hr0, rfl⟩
  rcases List.mem_map.mp hr0 with ⟨e, _, rfl⟩
  rw [transformEdges_columns, getCell_outRow _ _ _ hav,
    show (graph_to_gdfs g).columns = edgeColumns g from rfl,
    getCell_mapRow (edgeCell e) _ _ hmemc]
  simp [flattenColCell, edgeCell, Cell.isGeom]

/-- Witness for C5 at the demo graph and a concrete output row. -/
theorem geometry_present_nonnull_witness :
    (getCell (transformEdges (graph_to_gdfs demoGraph)).columns
        [Cell.geom [(0, 0), (1, 1)], Cell.scalar "residential"] "geometry").isGeom = true
  ∧ getCell (transformEdges (graph_to_gdfs demoGraph)).columns
        [Cell.geom [(0, 0), (1, 1)], Cell.scalar "residential"] "geometry" ≠ Cell.missing :=
  (geometry_present_nonnull demoGraph).2 _ (by decide)

/-- C6: two runs on the same fetched graph, from any two prior
filesystem states, leave the same table in the output file — hence
identical feature count, property-key sets and geometries. -/
theorem transform_deterministic :
    ∀ (g : Graph) (fs₁ fs₂ : FileSystem),
      readFile (fetch_streets (Except.ok g) fs₁).fs OUTPUT_FILE
        = some (transformEdges (graph_to_gdfs g))
    ∧ readFile (fetch_streets (Except.ok g) fs₂).fs OUTPUT_FILE
        = some (transformEdges (graph_to_gdfs g)) :=
  fun _ _ _ =>
    ⟨readFile_to_file_same _ _ _, readFile_to_file_same _ _ _⟩

/-- C7: the write phase first ensures the destination directory exists
(recursively, succeeding whether or not it already existed — the
initial filesystem is arbitrary, possibly without the directory) and
then writes the output file, overwriting whatever was there. -/
theorem write_creates_dir_and_overwrites :
    ∀ (fs : FileSystem) (t : Table),
      dirExists (writePhase fs t) OUTPUT_DIR
    ∧ readFile (writePhase fs t) OUTPUT_FILE = some t := by
  intro fs t
  constructor
  · show OUTPUT_DIR ∈ OUTPUT_DIR.inits ++ fs.dirs
    exact List.mem_append_left _ (by decide)
  · exact readFile_to_file_same _ _ _

/-- C8: when the upstream fetch raises, the run exits nonzero and the
filesystem — in particular any prior output file — is untouched, the
write step never being reached. -/
theorem fetch_failure_leaves_fs_unchanged :
    ∀ (msg : String) (fs : FileSystem),
      (fetch_streets (Except.error msg) fs).exitZero = false
    ∧ (fetch_streets (Except.error msg) fs).fs = fs
    ∧ readFile (fetch_streets (Except.error msg) fs).fs OUTPUT_FILE
        = readFile fs OUTPUT_FILE :=
  fun _ _ => ⟨rfl, rfl, rfl⟩

/-- C9: when a highway column is present in the output table the
reporter prints its value counts — each distinct non-missing value with
its frequency, in descending order of count; when the column is absent
no breakdown is printed. -/
theorem highway_breakdown_descending :
    ∀ t : Table,
      (("highway" ∈ t.columns) →
          highwayBreakdown t = some (value_counts (columnValues t "highway"))
        ∧ (value_counts (columnValues t "highway")).Sorted countDesc
        ∧ (∀ p ∈ value_counts (columnValues t "highway"),
            p.2 = (nonMissing (columnValues t "highway")).count p.1)
        ∧ (∀ v : Cell,
            v ∈ (value_counts (columnValues t "highway")).map Prod.fst
              ↔ v ∈ nonMissing (columnValues t "highway")))
    ∧ (("highway" ∉ t.columns) → highwayBreakdown t = none) := by
  intro t
  constructor
  · intro h
    exact ⟨by simp [highwayBreakdown, h], value_counts_sorted _,
      value_counts_count _, fun v => value_counts_keys _ v⟩
  · intro h
    simp [highwayBreakdown, h]

/-- Witness for C9: the breakdown is printed for the demo output table
(which has a highway column) and not for a table without one. -/
theorem highway_breakdown_descending_witness :
    highwayBreakdown (transformEdges (graph_to_gdfs demoGraph))
      = some (value_counts
          (columnValues (transformEdges (graph_to_gdfs demoGraph)) "highway"))
  ∧ highwayBreakdown noHighwayTable = none :=
  ⟨((highway_breakdown_descending (transformEdges (graph_to_gdfs demoGraph))).1
      (by decide)).1,
   (highway_breakdown_descending noHighwayTable).2 (by decide)⟩

/-- C10: the retained columns appear in the fixed preferred-list order
— `available` is a sublist of `keep_cols` — and depend only on which
columns are present, not on the fetched table's column order. -/
theorem columns_in_preferred_order :
    (∀ cols : List String, (available cols).Sublist keep_cols)
  ∧ (∀ cols cols' : List String, (∀ c, c ∈ cols ↔ c ∈ cols') →
        available cols = available cols') := by
  constructor
  · intro cols
    exact List.filter_sublist keep_cols
  · intro cols cols' h
    exact List.filter_congr (fun c _ => by simp [h c])

/-- Witness for C10: two column lists with the same members in opposite
orders select the same columns. -/
theorem columns_in_preferred_order_witness :
    available ["highway", "geometry"] = available ["geometry", "highway"] :=
  columns_in_preferred_order.2 _ _
    (fun c => by constructor <;> intro hc <;> simpa [List.mem_cons, or_comm] using hc)

end HarborView
